import Mathlib

/-!
Verification of the task orchestration engine of ScienceBoard_CODA.

Shallow embedding of `sci/base/task.py`, `sci/Tester.py` and
`sci/base/utils.py`: the generic evaluation scan (`Task.eval`), the step
loop with the liquid-step penalty policy (`Task.predict`), the step
liquidity test (`Task._step`), the retrying initialisation
(`Task.init`), the deterministic sharding of discovered task files
(`Tester.__traverse`), the grouping of task descriptors
(`TaskGroup.__init__` together with `TypeSort.__eq__`), the group
iteration with session lifecycle (`TaskGroup.__call__`), the bounded
executor (`block`), and the run counter (`Counter` / `Tester.__call__`).
-/

namespace CODA

/-! ## Evaluation rules and the generic scan (`Task.eval`) -/

/-- One entry of a task's `evaluate` list: a dict with a `type` field and,
for early-stop rules, a `value` (the expected stop kind) and an `args`
list (checked only for the `ANS` kind). -/
structure EvalItem where
  type : String
  value : String := ""
  args : List String := []
deriving DecidableEq, Repr

/-- `Task.EARLY_STOP = "stop"` from `task.py`. -/
def EARLY_STOP : String := "stop"

/-- `Primitive.ANS.__name__`: the answer-bearing stop kind. -/
def ANS : String := "ANS"

/-- `Primitive.TIMEOUT.__name__`: the sentinel stop kind produced when the
step budget is exhausted. -/
def TIMEOUT : String := "TIMEOUT"

/-- Outcome of the generic evaluation scan: `matched b` models `Task.eval`
returning the boolean `b`, while `deferred rs` models it raising
`Task.PlannedNotImplemented` with `rs` as the rules still held in
`self.evaluate`, which `_stop_handler` hands to the specialised per-task
evaluator. -/
inductive EvalOutcome where
  | matched (b : Bool)
  | deferred (remaining : List EvalItem)
deriving DecidableEq, Repr

/-- The while-loop of `Task.eval` (task.py lines 370-389): an index walks
the `evaluate` list; a non-early-stop item just advances the index; an
early-stop item whose `value` differs from the stop type, or equals `ANS`
with mismatching `args`, returns `False`; a matching early-stop item is
deleted in place (`del self.evaluate[eval_index]`).  After the loop, a
nonempty list raises `PlannedNotImplemented`, an empty one returns
`True`. -/
def evalLoop (stopType : String) (stopArgs : List String)
    (evaluate : List EvalItem) (i : Nat) : EvalOutcome :=
  if h : i < evaluate.length then
    let item := evaluate.get ⟨i, h⟩
    if item.type ≠ EARLY_STOP then
      evalLoop stopType stopArgs evaluate (i + 1)
    else if item.value ≠ stopType then
      .matched false
    else if item.value = ANS ∧ item.args ≠ stopArgs then
      .matched false
    else
      evalLoop stopType stopArgs (evaluate.eraseIdx i) i
  else if 0 < evaluate.length then
    .deferred evaluate
  else
    .matched true
termination_by evaluate.length - i
decreasing_by
  · omega
  · have := List.length_eraseIdx_add_one h
    omega

/-- `Task.eval self stop_type stop_args`: run the scan from index 0. -/
def taskEval (evaluate : List EvalItem) (stopType : String)
    (stopArgs : List String) : EvalOutcome :=
  evalLoop stopType stopArgs evaluate 0

/-- Claim C1 (counterexample): the generic scan does NOT stop at the first
domain-specific rule and defer.  With `evaluate = [domain, early-stop(ANS,
["42"])]` and stop signal `(TIMEOUT, [])`, the scan walks past the domain
rule, checks the early-stop rule against the signal and returns `false`;
had the scan stopped at the domain rule and deferred, the outcome would
have been `deferred`, as it is when the early-stop rule is absent. -/
theorem c1_counterexample :
    taskEval [⟨"dom", "", []⟩, ⟨EARLY_STOP, ANS, ["42"]⟩] TIMEOUT []
        = .matched false ∧
    taskEval [⟨"dom", "", []⟩] TIMEOUT [] = .deferred [⟨"dom", "", []⟩] := by
  constructor <;> simp [taskEval, evalLoop, EARLY_STOP, ANS, TIMEOUT]

/-- Claim C1 (amended): during `Task.eval` the rules are scanned left to
right; a rule whose type is not the early-stop kind is skipped in place
(the scan continues, so early-stop rules after it are still checked
against the stop signal); only when the scan has passed the end of the
list does the outcome get decided: deferred to the specialised per-task
evaluator if any (domain) rules remain, `true` if the list was fully
consumed. -/
theorem c1_amended_scan_skips_domain_rules (stopType : String)
    (stopArgs : List String) (evaluate : List EvalItem) (i : Nat) :
    (∀ h : i < evaluate.length, evaluate[i].type ≠ EARLY_STOP →
      evalLoop stopType stopArgs evaluate i
        = evalLoop stopType stopArgs evaluate (i + 1)) ∧
    (evaluate.length ≤ i → 0 < evaluate.length →
      evalLoop stopType stopArgs evaluate i = .deferred evaluate) ∧
    (evaluate.length ≤ i → evaluate.length = 0 →
      evalLoop stopType stopArgs evaluate i = .matched true) := by
  refine ⟨?_, ?_, ?_⟩
  · intro h hne
    rw [evalLoop]
    simp [h, hne]
  · intro hle hpos
    rw [evalLoop]
    simp [Nat.not_lt.mpr hle, hpos]
  · intro hle hzero
    rw [evalLoop]
    simp [hzero]

/-- Witness for C1 (amended) at concrete inputs. -/
theorem c1_amended_witness :
    evalLoop "T" [] [⟨"dom", "", []⟩, ⟨"stop", "T", []⟩] 0
      = evalLoop "T" [] [⟨"dom", "", []⟩, ⟨"stop", "T", []⟩] 1 ∧
    evalLoop "T" [] [⟨"dom", "", []⟩] 1 = .deferred [⟨"dom", "", []⟩] ∧
    evalLoop "T" [] ([] : List EvalItem) 0 = .matched true := by
  refine ⟨?_, ?_, ?_⟩
  · exact (c1_amended_scan_skips_domain_rules "T" []
      [⟨"dom", "", []⟩, ⟨"stop", "T", []⟩] 0).1 (by decide) (by decide)
  · exact (c1_amended_scan_skips_domain_rules "T" []
      [⟨"dom", "", []⟩] 1).2.1 (by decide) (by decide)
  · exact (c1_amended_scan_skips_domain_rules "T" []
      [] 0).2.2 (by decide) (by decide)

/-- Claim C2: each early-stop rule the scan reaches is checked against the
stop signal `(kind, args)`: a differing kind, or the `ANS` kind with an
argument list not exactly equal to the rule's, makes `eval` return `false`
immediately; otherwise the rule is removed and the scan continues; an
exhausted (fully consumed) rule list yields verdict `true`.  Concretely,
`evaluate = [\x7btype: "stop", value: "ANS", args: ["42"]\x7d]` gives
verdict `true` for stop signal `(ANS, ["42"])` and `false` for
`(ANS, ["7"])`. -/
theorem c2_eval_early_stop_rules (stopType : String) (stopArgs : List String)
    (evaluate : List EvalItem) (i : Nat) (h : i < evaluate.length)
    (hstop : evaluate[i].type = EARLY_STOP) :
    (evaluate[i].value ≠ stopType →
      evalLoop stopType stopArgs evaluate i = .matched false) ∧
    (evaluate[i].value = stopType →
      evaluate[i].value = ANS → evaluate[i].args ≠ stopArgs →
      evalLoop stopType stopArgs evaluate i = .matched false) ∧
    (evaluate[i].value = stopType →
      (evaluate[i].value = ANS → evaluate[i].args = stopArgs) →
      evalLoop stopType stopArgs evaluate i
        = evalLoop stopType stopArgs (evaluate.eraseIdx i) i) ∧
    taskEval [] stopType stopArgs = .matched true ∧
    taskEval [⟨EARLY_STOP, ANS, ["42"]⟩] ANS ["42"] = .matched true ∧
    taskEval [⟨EARLY_STOP, ANS, ["42"]⟩] ANS ["7"] = .matched false := by
  have h1 : ¬(evaluate[i].type ≠ EARLY_STOP) := fun hc => hc hstop
  refine ⟨?_, ?_, ?_, ?_, ?_, ?_⟩
  · intro hv
    rw [evalLoop]
    simp only [List.get_eq_getElem, dif_pos h, if_neg h1, if_pos hv]
  · intro hv hans hargs
    have h2 : ¬(evaluate[i].value ≠ stopType) := fun hc => hc hv
    have h3 : evaluate[i].value = ANS ∧ evaluate[i].args ≠ stopArgs :=
      ⟨hans, hargs⟩
    rw [evalLoop]
    simp only [List.get_eq_getElem, dif_pos h, if_neg h1, if_neg h2, if_pos h3]
  · intro hv hok
    have h2 : ¬(evaluate[i].value ≠ stopType) := fun hc => hc hv
    have h3 : ¬(evaluate[i].value = ANS ∧ evaluate[i].args ≠ stopArgs) :=
      fun hc => hc.2 (hok hc.1)
    rw [evalLoop]
    simp only [List.get_eq_getElem, dif_pos h, if_neg h1, if_neg h2, if_neg h3]
  · simp [taskEval, evalLoop]
  · simp [taskEval, evalLoop, EARLY_STOP, ANS]
  · simp [taskEval, evalLoop, EARLY_STOP, ANS]

/-- Witness for C2 at concrete inputs. -/
theorem c2_witness :
    evalLoop "X" [] [⟨"stop", "Y", []⟩] 0 = .matched false ∧
    evalLoop "ANS" ["7"] [⟨"stop", "ANS", ["42"]⟩] 0 = .matched false ∧
    evalLoop "T" [] [⟨"stop", "T", []⟩] 0 = evalLoop "T" [] [] 0 := by
  refine ⟨?_, ?_, ?_⟩
  · exact (c2_eval_early_stop_rules "X" [] [⟨"stop", "Y", []⟩] 0
      (by decide) (by decide)).1 (by decide)
  · exact (c2_eval_early_stop_rules "ANS" ["7"] [⟨"stop", "ANS", ["42"]⟩] 0
      (by decide) (by decide)).2.1 (by decide) (by decide) (by decide)
  · exact (c2_eval_early_stop_rules "T" [] [⟨"stop", "T", []⟩] 0
      (by decide) (by decide)).2.2.1 (by decide) (by simp)

/-! ## The step loop (`Task.predict`) -/

/-- What one `Task._step` call does, as seen by the `predict` loop: either
`Primitive.PlannedTermination` is raised carrying a stop kind and args
(`stop`), or `_step` returns its liquidity flag (`cont`). -/
inductive StepResult where
  | stop (stopType : String) (stopArgs : List String)
  | cont (invalid : Bool)
deriving DecidableEq, Repr

/-- `(threshold, reduction)` parsed from a task's `penalty` config string;
the default `(2147438648, 0)` effectively disables the policy. -/
structure Penalty where
  threshold : Nat
  reduction : Nat
deriving DecidableEq, Repr

/-- The while-loop of `Task.predict` (task.py lines 344-358): while
`step_index < self.steps`, run `_step`; a raised `PlannedTermination`
returns its signal; otherwise `liquid` increases by 1 when the step was
liquid and, on `liquid >= penalty[0]`, `liquid` resets to 0 and
`self.steps` drops by `penalty[1]`.  Exhausting the budget returns
`(TIMEOUT, [])`. -/
def predictLoop (act : Nat → StepResult) (p : Penalty)
    (liquid stepIndex : Nat) (steps : Int) : String × List String :=
  if (stepIndex : Int) < steps then
    match act stepIndex with
    | .stop stopType stopArgs => (stopType, stopArgs)
    | .cont invalid =>
      let liquid2 := liquid + (if invalid then 1 else 0)
      if p.threshold ≤ liquid2 then
        predictLoop act p 0 (stepIndex + 1) (steps - p.reduction)
      else
        predictLoop act p liquid2 (stepIndex + 1) steps
  else
    (TIMEOUT, [])
termination_by (steps - stepIndex).toNat
decreasing_by
  · omega
  · omega

/-- `Task.predict`: the loop starts with `liquid = 0`, `step_index = 0`. -/
def taskPredict (act : Nat → StepResult) (p : Penalty) (steps : Int) :
    String × List String :=
  predictLoop act p 0 0 steps

/-- The step pattern of Scenario C: every step is liquid. -/
def allLiquid : Nat → StepResult := fun _ => .cont true

/-- One unfolding of the `predict` loop when `_step` returns. -/
theorem predictLoop_cont (act : Nat → StepResult) (p : Penalty)
    (liquid stepIndex : Nat) (steps : Int) (inv : Bool)
    (hlt : (stepIndex : Int) < steps) (ha : act stepIndex = .cont inv) :
    predictLoop act p liquid stepIndex steps
      = if p.threshold ≤ liquid + (if inv then 1 else 0) then
          predictLoop act p 0 (stepIndex + 1) (steps - p.reduction)
        else
          predictLoop act p (liquid + (if inv then 1 else 0))
            (stepIndex + 1) steps := by
  rw [predictLoop]
  simp only [if_pos hlt, ha]

/-- The `predict` loop exits with `(TIMEOUT, [])` once the budget is
spent. -/
theorem predictLoop_exhausted (act : Nat → StepResult) (p : Penalty)
    (liquid stepIndex : Nat) (steps : Int) (hge : steps ≤ (stepIndex : Int)) :
    predictLoop act p liquid stepIndex steps = (TIMEOUT, []) := by
  rw [predictLoop]
  simp only [if_neg (Int.not_lt.mpr hge)]

/-- Claim C3: in `Task.predict` with `penalty = (T, R)`, when the
consecutive-liquid counter reaches `T` the budget drops by exactly `R` and
the counter resets to 0; a spent budget without a stop signal yields
`(TIMEOUT, [])`.  With `steps = 10`, `penalty = (3, 2)` and every step
liquid, the budget becomes 8 after the 3rd step, 6 after the 6th step, and
the loop ends at step index 6 with `(TIMEOUT, [])`. -/
theorem c3_predict_penalty (act : Nat → StepResult) (p : Penalty)
    (liquid stepIndex : Nat) (steps : Int) :
    ((stepIndex : Int) < steps → act stepIndex = .cont true →
      p.threshold ≤ liquid + 1 →
      predictLoop act p liquid stepIndex steps
        = predictLoop act p 0 (stepIndex + 1) (steps - p.reduction)) ∧
    (steps ≤ (stepIndex : Int) →
      predictLoop act p liquid stepIndex steps = (TIMEOUT, [])) ∧
    predictLoop allLiquid ⟨3, 2⟩ 0 0 10 = predictLoop allLiquid ⟨3, 2⟩ 0 3 8 ∧
    predictLoop allLiquid ⟨3, 2⟩ 0 3 8 = predictLoop allLiquid ⟨3, 2⟩ 0 6 6 ∧
    predictLoop allLiquid ⟨3, 2⟩ 0 6 6 = (TIMEOUT, []) ∧
    taskPredict allLiquid ⟨3, 2⟩ 10 = (TIMEOUT, []) := by
  have step : ∀ (l k : Nat) (s : Int), (k : Int) < s →
      predictLoop allLiquid ⟨3, 2⟩ l k s
        = if 3 ≤ l + 1 then predictLoop allLiquid ⟨3, 2⟩ 0 (k + 1) (s - 2)
          else predictLoop allLiquid ⟨3, 2⟩ (l + 1) (k + 1) s := by
    intro l k s hlt
    simpa using predictLoop_cont allLiquid ⟨3, 2⟩ l k s true hlt rfl
  have run3 : ∀ (k : Nat) (s : Int), (k : Int) + 3 ≤ s →
      predictLoop allLiquid ⟨3, 2⟩ 0 k s
        = predictLoop allLiquid ⟨3, 2⟩ 0 (k + 3) (s - 2) := by
    intro k s hle
    rw [step 0 k s (by omega), if_neg (by omega),
      step 1 (k + 1) s (by push_cast; omega), if_neg (by omega),
      step 2 (k + 2) s (by push_cast; omega), if_pos (by omega)]
  refine ⟨?_, ?_, ?_, ?_, ?_, ?_⟩
  · intro hlt ha hth
    rw [predictLoop_cont act p liquid stepIndex steps true hlt ha,
      if_pos (by simpa using hth)]
  · exact predictLoop_exhausted act p liquid stepIndex steps
  · simpa using run3 0 10 (by norm_num)
  · simpa using run3 3 8 (by norm_num)
  · exact predictLoop_exhausted allLiquid ⟨3, 2⟩ 0 6 6 (by norm_num)
  · rw [taskPredict]
    rw [show predictLoop allLiquid ⟨3, 2⟩ 0 0 10
      = predictLoop allLiquid ⟨3, 2⟩ 0 3 8 from by
        simpa using run3 0 10 (by norm_num)]
    rw [show predictLoop allLiquid ⟨3, 2⟩ 0 3 8
      = predictLoop allLiquid ⟨3, 2⟩ 0 6 6 from by
        simpa using run3 3 8 (by norm_num)]
    exact predictLoop_exhausted allLiquid ⟨3, 2⟩ 0 6 6 (by norm_num)

/-- Witness for C3 at concrete inputs. -/
theorem c3_witness :
    predictLoop (fun _ => .cont true) ⟨2, 1⟩ 1 0 5
      = predictLoop (fun _ => .cont true) ⟨2, 1⟩ 0 1 4 ∧
    predictLoop (fun _ => .cont true) ⟨2, 1⟩ 0 4 4 = (TIMEOUT, []) := by
  constructor
  · exact (c3_predict_penalty (fun _ => .cont true) ⟨2, 1⟩ 1 0 5).1
      (by norm_num) rfl (by norm_num)
  · exact (c3_predict_penalty (fun _ => .cont true) ⟨2, 1⟩ 0 4 4).2.1
      (by norm_num)

/-! ## Step liquidity (`Task._step`) -/

/-- Tri-state outcome of executing one Code Action against the session
(`Manager.__call__`): `True` (effective), `False` (explicit no-op or
failure) or `None` (side-effecting but undecidable). -/
inductive ExecResult where
  | isTrue
  | isFalse
  | undecided
deriving DecidableEq, Repr

/-- task.py line 330: `all([item is False for item in results])` — the
step is liquid iff every executed Code Action resolved to the literal
`False`. -/
def stepLiquid (results : List ExecResult) : Bool :=
  results.all (fun item => item == .isFalse)

/-- task.py lines 285-330, the non-debug path of `Task._step`: before any
Code Action is executed, line 285 evaluates `type(response_codes[0])`
(the nested-batch check), which raises `IndexError` when the collaborator
returned no Code Actions; with at least one action, each is executed in
order and the step's liquidity is `all([item is False for item in
results])`.  The input lists each proposed action by its execution
outcome, so `[]` is exactly the empty collaborator response. -/
def stepClassify (results : List ExecResult) : Except String Bool :=
  match results with
  | [] => .error "IndexError: list index out of range"
  | _ :: _ => .ok (stepLiquid results)

/-- Claim C10 (counterexample): a step whose action-proposing collaborator
returns an empty list of Code Actions is NOT counted liquid:
`response_codes[0]` at task.py line 285 raises `IndexError` before the
classification at line 330 can run, so the step crashes instead of being
classified. -/
theorem c10_counterexample :
    stepClassify [] = .error "IndexError: list index out of range" ∧
    stepClassify [] ≠ .ok true := by
  exact ⟨rfl, by simp [stepClassify]⟩

/-- Claim C10 (amended): a step that executes at least one Code Action is
classified as liquid exactly when every element of its executed result
list is the literal `False`, and any undecided (`None`) result makes the
step non-liquid; a step whose collaborator returns an empty list of Code
Actions is never classified at all — the `response_codes[0]` access
raises `IndexError` and the step crashes before the liquidity test is
reached. -/
theorem c10_amended_step_liquid (results : List ExecResult) :
    (results ≠ [] → stepClassify results = .ok (stepLiquid results)) ∧
    (stepLiquid results = true ↔ ∀ r ∈ results, r = .isFalse) ∧
    (.undecided ∈ results → stepLiquid results = false) ∧
    stepClassify [] = .error "IndexError: list index out of range" := by
  have hiff : stepLiquid results = true ↔ ∀ r ∈ results, r = .isFalse := by
    simp [stepLiquid, List.all_eq_true]
  refine ⟨?_, hiff, ?_, rfl⟩
  · intro hne
    cases results with
    | nil => exact absurd rfl hne
    | cons r rest => rfl
  · intro hmem
    cases hall : stepLiquid results
    · rfl
    · exact absurd (hiff.mp hall ExecResult.undecided hmem) (by decide)

/-- Witness for C10 (amended) at concrete inputs. -/
theorem c10_amended_witness :
    stepClassify [.isFalse, .isFalse] = .ok (stepLiquid [.isFalse, .isFalse]) ∧
    stepLiquid [.isFalse, .undecided, .isFalse] = false := by
  constructor
  · exact (c10_amended_step_liquid [.isFalse, .isFalse]).1 (by simp)
  · exact (c10_amended_step_liquid
      [.isFalse, .undecided, .isFalse]).2.2.1 (by decide)

/-! ## Deterministic sharding (`Tester.__traverse`) -/

/-- Tester.py lines 358-380: with `N` discovered files, `SPLITE = S` and
`INDEX = I`, `base_size = N // S`, `remainder = N % S`; shards below the
remainder start at `I * (base_size + 1)`, the rest skip the large blocks
and start at `remainder * (base_size + 1) + (I - remainder) *
base_size`. -/
def shardStart (N S I : Nat) : Nat :=
  if I < N % S then I * (N / S + 1)
  else (N % S) * (N / S + 1) + (I - N % S) * (N / S)

/-- Tester.py lines 369-382: the end of shard `I`'s slice, `start +
base_size + 1` for the first `remainder` shards and `start + base_size`
for the rest, clamped by `end = min(end, total_files)`. -/
def shardStop (N S I : Nat) : Nat :=
  min (if I < N % S then shardStart N S I + (N / S) + 1
       else shardStart N S I + (N / S)) N

/-- Stepping the shard start: each shard's slice has width `N/S + 1` below
the remainder and `N/S` from the remainder on. -/
theorem shardStart_succ (N S I : Nat) :
    shardStart N S (I + 1)
      = shardStart N S I + (if I < N % S then N / S + 1 else N / S) := by
  rcases lt_or_ge I (N % S) with hI | hI
  · rcases lt_or_ge (I + 1) (N % S) with hI1 | hI1
    · rw [shardStart, if_pos hI1, shardStart, if_pos hI, if_pos hI]
      ring
    · have hIr : I + 1 = N % S := by omega
      rw [shardStart, if_neg (by omega), shardStart, if_pos hI, if_pos hI,
        ← hIr]
      simp
      ring
  · rw [shardStart, if_neg (by omega), shardStart, if_neg (by omega),
      if_neg (by omega)]
    have : I + 1 - N % S = (I - N % S) + 1 := by omega
    rw [this]
    ring

/-- The shard starts exhaust the range: shard `S` would start at `N`. -/
theorem shardStart_self (N S : Nat) (hS : 0 < S) :
    shardStart N S S = N := by
  have hr : N % S < S := Nat.mod_lt _ hS
  have hb : S * (N / S) + N % S = N := Nat.div_add_mod N S
  rw [shardStart, if_neg (by omega)]
  have h1 : (S - N % S) * (N / S) = S * (N / S) - (N % S) * (N / S) :=
    Nat.sub_mul S (N % S) (N / S)
  have h2 : (N % S) * (N / S) ≤ S * (N / S) :=
    Nat.mul_le_mul_right _ (le_of_lt hr)
  have h3 : (N % S) * (N / S + 1) = (N % S) * (N / S) + N % S := by ring
  omega

/-- Shard starts are monotone in the shard index. -/
theorem shardStart_mono (N S : Nat) {J K : Nat} (hJK : J ≤ K) :
    shardStart N S J ≤ shardStart N S K := by
  induction K, hJK using Nat.le_induction with
  | base => exact le_refl _
  | succ K hJK ih =>
    calc shardStart N S J ≤ shardStart N S K := ih
    _ ≤ _ := by rw [shardStart_succ]; omega

/-- Within range, the clamp `min(end, total_files)` never bites: the stop
of shard `I` is its start plus its slice width. -/
theorem shardStop_eq (N S I : Nat) (hS : 0 < S) (hI : I < S) :
    shardStop N S I
      = shardStart N S I + (if I < N % S then N / S + 1 else N / S) := by
  have hle : shardStart N S I
      + (if I < N % S then N / S + 1 else N / S) ≤ N := by
    rw [← shardStart_succ]
    calc shardStart N S (I + 1) ≤ shardStart N S S :=
      shardStart_mono N S hI
    _ = N := shardStart_self N S hS
  rw [shardStop]
  rcases lt_or_ge I (N % S) with h | h
  · simp only [if_pos h] at hle ⊢
    rw [min_eq_left (by omega)]
    omega
  · simp only [if_neg (by omega : ¬I < N % S)] at hle ⊢
    rw [min_eq_left (by omega)]

/-- `⌈N/S⌉ = ⌊N/S⌋ + 1` whenever `S` does not divide `N`. -/
theorem ceilDiv_eq_of_mod_pos (N S : Nat) (hS : 0 < S) (h : 0 < N % S) :
    (N + S - 1) / S = N / S + 1 := by
  have hr : N % S < S := Nat.mod_lt _ hS
  have hb : S * (N / S) + N % S = N := Nat.div_add_mod N S
  have hrw : N + S - 1 = (N % S - 1) + S * (N / S + 1) := by
    have : S * (N / S + 1) = S * (N / S) + S := by ring
    omega
  rw [hrw, Nat.add_mul_div_left _ _ hS, Nat.div_eq_of_lt (by omega)]
  omega

/-- Claim C4: for `N ≥ 0`, `S ≥ 1`, the sharding of `Tester.__traverse`
partitions `[0..N)` into `S` contiguous, non-overlapping, order-preserving
slices: shard 0 starts at 0, each shard ends where the next begins, the
last ends at `N`; shard `I` has size `⌈N/S⌉` when `I < N mod S` and
`⌊N/S⌋` otherwise, so earlier shards are never smaller; and `N = 10`,
`S = 3` gives slices `[0,4)`, `[4,7)`, `[7,10)`. -/
theorem c4_sharding (N S I J : Nat) (hS : 0 < S) :
    shardStart N S 0 = 0 ∧
    (I + 1 < S → shardStop N S I = shardStart N S (I + 1)) ∧
    shardStop N S (S - 1) = N ∧
    (I < N % S → shardStop N S I - shardStart N S I = (N + S - 1) / S) ∧
    (N % S ≤ I → I < S → shardStop N S I - shardStart N S I = N / S) ∧
    (J ≤ I → I < S →
      shardStop N S I - shardStart N S I
        ≤ shardStop N S J - shardStart N S J) ∧
    (shardStart 10 3 0 = 0 ∧ shardStop 10 3 0 = 4 ∧ shardStart 10 3 1 = 4 ∧
      shardStop 10 3 1 = 7 ∧ shardStart 10 3 2 = 7 ∧ shardStop 10 3 2 = 10) := by
  have hr : N % S < S := Nat.mod_lt _ hS
  refine ⟨?_, ?_, ?_, ?_, ?_, ?_, by decide⟩
  · rw [shardStart]
    rcases Nat.eq_zero_or_pos (N % S) with h | h
    · rw [if_neg (by omega), h]
      simp
    · rw [if_pos h]
      simp
  · intro hI1
    rw [shardStop_eq N S I hS (by omega), shardStart_succ]
  · rw [shardStop_eq N S (S - 1) hS (by omega),
      if_neg (by omega : ¬S - 1 < N % S)]
    have hsucc := shardStart_succ N S (S - 1)
    rw [if_neg (by omega : ¬S - 1 < N % S),
      show S - 1 + 1 = S from by omega] at hsucc
    have hself := shardStart_self N S hS
    omega
  · intro hI
    rw [shardStop_eq N S I hS (by omega), if_pos hI,
      ceilDiv_eq_of_mod_pos N S hS (by omega)]
    simp
  · intro hrI hI
    rw [shardStop_eq N S I hS hI, if_neg (by omega)]
    simp
  · intro hJI hI
    rw [shardStop_eq N S I hS hI, shardStop_eq N S J hS (by omega)]
    rcases lt_or_ge I (N % S) with h | h
    · rw [if_pos h, if_pos (by omega)]
      omega
    · rw [if_neg (by omega)]
      split <;> omega

/-- Witness for C4 at `N = 10`, `S = 3`. -/
theorem c4_witness :
    shardStop 10 3 0 = shardStart 10 3 1 ∧
    shardStop 10 3 2 = 10 ∧
    shardStop 10 3 0 - shardStart 10 3 0 = (10 + 3 - 1) / 3 ∧
    shardStop 10 3 1 - shardStart 10 3 1 = 10 / 3 := by
  have t := c4_sharding 10 3 1 0 (by decide)
  refine ⟨(c4_sharding 10 3 0 0 (by decide)).2.1 (by decide), ?_, ?_, ?_⟩
  · exact (c4_sharding 10 3 2 0 (by decide)).2.2.1
  · exact (c4_sharding 10 3 0 0 (by decide)).2.2.2.1 (by decide)
  · exact t.2.2.2.2.1 (by decide) (by decide)

/-! ## Task descriptors and grouping (`TypeSort`, `TaskGroup.__init__`) -/

/-- `TypeSort.Sort` from utils.py: the fixed enumeration `Raw | VM`. -/
inductive SortKind where
  | Raw
  | VM
deriving DecidableEq, Repr

/-- `TypeSort` from utils.py: a task's capability tag and sort. -/
structure TypeSort where
  type : String
  sort : SortKind
deriving DecidableEq, Repr

/-- `TypeSort.__repr__` (utils.py lines 31-35): just the sort name for the
VM sort, `"<sort>:<type>"` otherwise. -/
def TypeSort.reprStr (ts : TypeSort) : String :=
  match ts.sort with
  | .VM => "VM"
  | .Raw => "Raw" ++ ":" ++ ts.type

/-- `TypeSort.__eq__` (utils.py lines 40-42): representation strings are
compared, which is what `TaskGroup.__init__` uses to decide group
boundaries. -/
def TypeSort.eq (a b : TypeSort) : Bool :=
  a.reprStr == b.reprStr

/-- A `TaskInfo` as far as grouping is concerned: the wrapped task's
identifier and its `type_sort`. -/
structure TaskInfo where
  ident : String
  typeSort : TypeSort
deriving DecidableEq, Repr

/-- The loop of `TaskGroup.__init__` (Tester.py lines 189-197).  The
Python mutates `groups[-1]`; here the still-growing last group is carried
as `cur` and flushed when a boundary is met or input ends.  `last` is the
previous descriptor (`last_info`). -/
def taskGroupsGo (cur : List TaskInfo) (last : TaskInfo) :
    List TaskInfo → List (List TaskInfo)
  | [] => [cur]
  | ti :: rest =>
    if TypeSort.eq ti.typeSort last.typeSort then
      taskGroupsGo (cur ++ [ti]) ti rest
    else
      cur :: taskGroupsGo [ti] ti rest

/-- `TaskGroup.__init__`: the `groups` field computed from the raw
descriptor list (`last_info` starts as `None`, so the first descriptor
always opens a group). -/
def taskGroups : List TaskInfo → List (List TaskInfo)
  | [] => []
  | ti :: rest => taskGroupsGo [ti] ti rest

/-- `TypeSort.__eq__` semantics: two VM tags are always equal (the type is
not part of the representation); two Raw tags are equal iff their types
are; a VM tag never equals a Raw tag. -/
theorem typeSort_eq_iff (a b : TypeSort) :
    TypeSort.eq a b = true ↔
      ((a.sort = .VM ∧ b.sort = .VM) ∨
       (a.sort = .Raw ∧ b.sort = .Raw ∧ a.type = b.type)) := by
  have hdata : ∀ s : String, ("Raw" ++ ":" ++ s).data
      = 'R' :: 'a' :: 'w' :: ':' :: s.data := by
    intro s
    simp [String.data_append]
  obtain ⟨ta, sa⟩ := a
  obtain ⟨tb, sb⟩ := b
  cases sa <;> cases sb <;>
    simp [TypeSort.eq, TypeSort.reprStr, beq_iff_eq, String.ext_iff, hdata]

/-- Symmetry of the representation-string comparison. -/
theorem typeSort_eq_comm (a b : TypeSort) :
    TypeSort.eq a b = TypeSort.eq b a := by
  simp [TypeSort.eq, beq_iff_eq]
  exact ⟨fun h => h.symm, fun h => h.symm⟩

/-- Flattening the groups recovers the input: each descriptor lands in
exactly one group, in order. -/
theorem taskGroupsGo_flatten (rest : List TaskInfo) :
    ∀ (cur : List TaskInfo) (last : TaskInfo),
      (taskGroupsGo cur last rest).flatten = cur ++ rest := by
  induction rest with
  | nil => intro cur last; simp [taskGroupsGo]
  | cons ti rest ih =>
    intro cur last
    rw [taskGroupsGo]
    split
    · rw [ih]
      simp
    · simp [ih]

/-- The first group produced extends the group under construction. -/
theorem taskGroupsGo_first (rest : List TaskInfo) :
    ∀ (cur : List TaskInfo) (last : TaskInfo),
      ∃ ext gs, taskGroupsGo cur last rest = (cur ++ ext) :: gs := by
  induction rest with
  | nil => intro cur last; exact ⟨[], [], by simp [taskGroupsGo]⟩
  | cons ti rest ih =>
    intro cur last
    rw [taskGroupsGo]
    split
    · obtain ⟨ext, gs, hg⟩ := ih (cur ++ [ti]) ti
      exact ⟨ti :: ext, gs, by simp [hg]⟩
    · exact ⟨[], taskGroupsGo [ti] ti rest, by simp⟩

/-- Within-group invariant: every emitted group is nonempty and is a chain
of descriptors equal under `TypeSort.__eq__` (each one equal to its
predecessor, the orientation the Python comparison uses). -/
theorem taskGroupsGo_runs (rest : List TaskInfo) :
    ∀ (cur : List TaskInfo) (last : TaskInfo), cur ≠ [] →
      cur.getLast? = some last →
      List.Chain' (fun a b => TypeSort.eq b.typeSort a.typeSort = true) cur →
      ∀ g ∈ taskGroupsGo cur last rest, g ≠ [] ∧
        List.Chain' (fun a b => TypeSort.eq b.typeSort a.typeSort = true) g := by
  induction rest with
  | nil =>
    intro cur last hne _ hchain g hg
    rw [taskGroupsGo] at hg
    simp at hg
    exact hg ▸ ⟨hne, hchain⟩
  | cons ti rest ih =>
    intro cur last hne hlast hchain g hg
    rw [taskGroupsGo] at hg
    by_cases heq : TypeSort.eq ti.typeSort last.typeSort = true
    · rw [if_pos heq] at hg
      refine ih (cur ++ [ti]) ti (by simp) (by simp) ?_ g hg
      rw [List.chain'_append]
      refine ⟨hchain, List.chain'_singleton _, ?_⟩
      intro x hx y hy
      rw [hlast] at hx
      simp at hx hy
      subst hx
      subst hy
      exact heq
    · rw [if_neg heq] at hg
      rcases List.mem_cons.mp hg with hg | hg
      · exact hg ▸ ⟨hne, hchain⟩
      · exact ih [ti] ti (by simp) (by simp) (List.chain'_singleton _) g hg

/-- Boundary invariant: adjacent emitted groups meet at a key change — the
head of the later group is not `TypeSort.__eq__`-equal to the last
descriptor of the earlier one. -/
theorem taskGroupsGo_boundaries (rest : List TaskInfo) :
    ∀ (cur : List TaskInfo) (last : TaskInfo),
      cur.getLast? = some last →
      List.Chain'
        (fun g h => ∀ x ∈ g.getLast?, ∀ y ∈ h.head?,
          TypeSort.eq y.typeSort x.typeSort = false)
        (taskGroupsGo cur last rest) := by
  induction rest with
  | nil =>
    intro cur last _
    rw [taskGroupsGo]
    exact List.chain'_singleton _
  | cons ti rest ih =>
    intro cur last hlast
    rw [taskGroupsGo]
    split
    · exact ih (cur ++ [ti]) ti (by simp)
    · obtain ⟨ext, gs, hg⟩ := taskGroupsGo_first rest [ti] ti
      have hchain := ih [ti] ti (by simp)
      rw [hg] at hchain ⊢
      rw [List.chain'_cons]
      refine ⟨?_, hchain⟩
      intro x hx y hy
      rw [hlast] at hx
      simp at hx hy
      subst hx
      subst hy
      simp_all

/-- Claim C5 (counterexample): two consecutive VM descriptors whose
`(sort, type)` keys differ — `(VM, "A")` and `(VM, "B")` — are placed in
one group, because `TaskGroup.__init__` compares `TypeSort.__repr__`
strings and a VM tag's representation omits the type. -/
theorem c5_counterexample :
    taskGroups [⟨"a", ⟨"A", .VM⟩⟩, ⟨"b", ⟨"B", .VM⟩⟩]
      = [[⟨"a", ⟨"A", .VM⟩⟩, ⟨"b", ⟨"B", .VM⟩⟩]] ∧
    (TypeSort.mk "A" .VM).type ≠ (TypeSort.mk "B" .VM).type := by
  constructor
  · rfl
  · decide

/-- Claim C5 (amended): `TaskGroup` construction partitions the input into
groups covering every descriptor exactly once in order; groups are
contiguous runs of descriptors equal under `TypeSort.__eq__`, and a new
group starts exactly when `TypeSort.__eq__` fails against the previous
descriptor.  `TypeSort.__eq__` compares representation strings: Raw
descriptors are equal iff their `type` fields agree, while VM descriptors
are all equal to each other regardless of `type`. -/
theorem c5_amended_task_grouping (raw : List TaskInfo) (a b : TypeSort) :
    (taskGroups raw).flatten = raw ∧
    (∀ g ∈ taskGroups raw, g ≠ [] ∧
      List.Chain' (fun x y => TypeSort.eq y.typeSort x.typeSort = true) g) ∧
    List.Chain'
      (fun g h => ∀ x ∈ g.getLast?, ∀ y ∈ h.head?,
        TypeSort.eq y.typeSort x.typeSort = false)
      (taskGroups raw) ∧
    (TypeSort.eq a b = true ↔
      ((a.sort = .VM ∧ b.sort = .VM) ∨
       (a.sort = .Raw ∧ b.sort = .Raw ∧ a.type = b.type))) := by
  refine ⟨?_, ?_, ?_, typeSort_eq_iff a b⟩
  · cases raw with
    | nil => rfl
    | cons ti rest =>
      rw [taskGroups, taskGroupsGo_flatten]
      rfl
  · cases raw with
    | nil => simp [taskGroups]
    | cons ti rest =>
      exact taskGroupsGo_runs rest [ti] ti (by simp) (by simp)
        (List.chain'_singleton _)
  · cases raw with
    | nil => simp [taskGroups]
    | cons ti rest =>
      exact taskGroupsGo_boundaries rest [ti] ti (by simp)

/-- Witness for C5 (amended) at a concrete input. -/
theorem c5_witness :
    (taskGroups [⟨"a", ⟨"x", .Raw⟩⟩, ⟨"b", ⟨"x", .Raw⟩⟩,
      ⟨"c", ⟨"y", .Raw⟩⟩]).flatten
      = [⟨"a", ⟨"x", .Raw⟩⟩, ⟨"b", ⟨"x", .Raw⟩⟩, ⟨"c", ⟨"y", .Raw⟩⟩] ∧
    (TypeSort.eq ⟨"x", .Raw⟩ ⟨"y", .Raw⟩ = true ↔
      ((SortKind.Raw = .VM ∧ SortKind.Raw = .VM) ∨
       (SortKind.Raw = .Raw ∧ SortKind.Raw = .Raw ∧ "x" = "y"))) :=
  ⟨(c5_amended_task_grouping [⟨"a", ⟨"x", .Raw⟩⟩, ⟨"b", ⟨"x", .Raw⟩⟩,
      ⟨"c", ⟨"y", .Raw⟩⟩] ⟨"x", .Raw⟩ ⟨"y", .Raw⟩).1,
   (c5_amended_task_grouping [] ⟨"x", .Raw⟩ ⟨"y", .Raw⟩).2.2.2⟩

/-! ## The run counter and driver loop (`Counter`, `Tester.__call__`) -/

/-- The four counts of Tester.py's `Counter` dataclass. -/
structure Counter where
  passed : Nat := 0
  failed : Nat := 0
  skipped : Nat := 0
  ignored : Nat := 0
deriving DecidableEq, Repr

/-- The derived total printed by `Counter.__str__`. -/
def Counter.total (c : Counter) : Nat :=
  c.passed + c.failed + c.skipped + c.ignored

/-- How one invocation `task_info()` ends: a boolean verdict, or an
exception escaping it. -/
inductive TaskRun where
  | verdict (b : Bool)
  | raises
deriving DecidableEq, Repr

/-- Modelled from the spec: the scoped result record `with self.log(...)
as result_exist` comes from class `Log`, which is not under src/; per the
spec a task is counted `ignored` exactly when "a prior result exists and
resumption-skip is enabled". -/
def resultExist (priorExists ignoreFlag : Bool) : Bool :=
  priorExists && ignoreFlag

/-- One iteration of the loop of `Tester.__call__` (Tester.py lines
432-444): `_ignore` when the scoped record pre-exists, otherwise `_pass`
or `_fail` by the verdict, or `_skip` when the invocation raises — the
`try`/`except` keeps the loop alive. -/
def counterStep (c : Counter) (re : Bool) (run : TaskRun) : Counter :=
  if re then { c with ignored := c.ignored + 1 }
  else
    match run with
    | .verdict true => { c with passed := c.passed + 1 }
    | .verdict false => { c with failed := c.failed + 1 }
    | .raises => { c with skipped := c.skipped + 1 }

/-- The driver loop over the planned tasks, each contributing its
`result_exist` flag and its run outcome. -/
def testerRun (c : Counter) : List (Bool × TaskRun) → Counter
  | [] => c
  | (re, run) :: rest => testerRun (counterStep c re run) rest

/-- Each iteration grows the derived total by exactly 1. -/
theorem counterStep_total (c : Counter) (re : Bool) (run : TaskRun) :
    (counterStep c re run).total = c.total + 1 := by
  cases re <;> rcases run with b | _ <;>
    first
      | (cases b <;> (simp [counterStep, Counter.total]; omega))
      | (simp [counterStep, Counter.total]; omega)

/-- The driver processes every planned task: the total counts them all,
whatever each outcome was. -/
theorem testerRun_total (plan : List (Bool × TaskRun)) :
    ∀ c : Counter, (testerRun c plan).total = c.total + plan.length := by
  induction plan with
  | nil => intro c; rfl
  | cons p rest ih =>
    intro c
    obtain ⟨re, run⟩ := p
    rw [testerRun, ih, counterStep_total]
    simp
    omega

/-- Claim C9: the four counts are never decremented; each driver iteration
increments exactly one of them by exactly 1 — `ignored` when the scoped
result pre-exists (a prior result exists and resumption-skip is enabled),
`passed`/`failed` by the verdict, `skipped` when the invocation raises —
so the derived total equals the number of tasks processed and the batch
survives any single task's error. -/
theorem c9_counter (c : Counter) (re : Bool) (run : TaskRun)
    (plan : List (Bool × TaskRun)) (priorExists ignoreFlag : Bool) :
    (c.passed ≤ (counterStep c re run).passed ∧
     c.failed ≤ (counterStep c re run).failed ∧
     c.skipped ≤ (counterStep c re run).skipped ∧
     c.ignored ≤ (counterStep c re run).ignored) ∧
    (counterStep c re run).total = c.total + 1 ∧
    (re = true → counterStep c re run = { c with ignored := c.ignored + 1 }) ∧
    (re = false → run = .verdict true →
      counterStep c re run = { c with passed := c.passed + 1 }) ∧
    (re = false → run = .verdict false →
      counterStep c re run = { c with failed := c.failed + 1 }) ∧
    (re = false → run = .raises →
      counterStep c re run = { c with skipped := c.skipped + 1 }) ∧
    (resultExist priorExists ignoreFlag = true ↔
      priorExists = true ∧ ignoreFlag = true) ∧
    (testerRun c plan).total = c.total + plan.length := by
  refine ⟨?_, counterStep_total c re run, ?_, ?_, ?_, ?_, ?_,
    testerRun_total plan c⟩
  · cases re <;> rcases run with b | _
    · cases b <;> simp [counterStep]
    · simp [counterStep]
    · cases b <;> simp [counterStep]
    · simp [counterStep]
  · intro h; simp [counterStep, h]
  · intro h h2; simp [counterStep, h, h2]
  · intro h h2; simp [counterStep, h, h2]
  · intro h h2; simp [counterStep, h, h2]
  · simp [resultExist]

/-- Witness for C9 at concrete inputs. -/
theorem c9_witness :
    counterStep ⟨1, 2, 3, 4⟩ true (.verdict true) = ⟨1, 2, 3, 5⟩ ∧
    counterStep ⟨1, 2, 3, 4⟩ false (.verdict true) = ⟨2, 2, 3, 4⟩ ∧
    counterStep ⟨1, 2, 3, 4⟩ false (.verdict false) = ⟨1, 3, 3, 4⟩ ∧
    counterStep ⟨1, 2, 3, 4⟩ false .raises = ⟨1, 2, 4, 4⟩ := by
  have t := c9_counter ⟨1, 2, 3, 4⟩ true (.verdict true) [] true true
  have f1 := c9_counter ⟨1, 2, 3, 4⟩ false (.verdict true) [] true true
  have f2 := c9_counter ⟨1, 2, 3, 4⟩ false (.verdict false) [] true true
  have f3 := c9_counter ⟨1, 2, 3, 4⟩ false .raises [] true true
  exact ⟨t.2.2.1 rfl, f1.2.2.2.1 rfl rfl, f2.2.2.2.2.1 rfl rfl,
    f3.2.2.2.2.2.1 rfl rfl⟩

/-! ## Task group iteration (`TaskGroup.__call__`) -/

/-- Observable session and scheduling events of one pass of
`TaskGroup.__call__`. -/
inductive GroupEvent where
  | openSession
  | yieldTask (t : TaskInfo)
  | closeSession
deriving DecidableEq, Repr

/-- `TaskGroup.__call__` (Tester.py lines 214-222) for one group:
`has_unfinished = any([item.snoop(base_path) for item in group])`; if some
member is unfinished or `ignore` is off, the group's shared manager is
entered (`with group[0].task.manager:`), the members are yielded inside
the block, and the context manager closes the session afterwards;
otherwise the members are yielded with no session activity at all. -/
def groupEvents (unfinished : TaskInfo → Bool) (ignore : Bool)
    (group : List TaskInfo) : List GroupEvent :=
  if group.any unfinished || !ignore then
    .openSession :: (group.map .yieldTask ++ [.closeSession])
  else
    group.map .yieldTask

/-- The generator of `TaskGroup.__call__` over all groups. -/
def taskGroupCall (unfinished : TaskInfo → Bool) (ignore : Bool) :
    List (List TaskInfo) → List GroupEvent
  | [] => []
  | g :: gs =>
    groupEvents unfinished ignore g ++ taskGroupCall unfinished ignore gs

/-- The task a generator event hands to the driver, if any. -/
def GroupEvent.yielded : GroupEvent → Option TaskInfo
  | .yieldTask t => some t
  | _ => none

/-- Both branches of `TaskGroup.__call__` yield exactly the group's
members, in order. -/
theorem groupEvents_yielded (unfinished : TaskInfo → Bool) (ignore : Bool)
    (g : List TaskInfo) :
    (groupEvents unfinished ignore g).filterMap GroupEvent.yielded = g := by
  have hmap : (g.map GroupEvent.yieldTask).filterMap GroupEvent.yielded = g := by
    induction g with
    | nil => rfl
    | cons t rest ih => simp [GroupEvent.yielded, ih]
  rw [groupEvents]
  split
  · simp [List.filterMap_append, hmap, GroupEvent.yielded]
  · exact hmap

/-- The whole generator yields exactly the flattened plan. -/
theorem taskGroupCall_yielded (unfinished : TaskInfo → Bool) (ignore : Bool)
    (gs : List (List TaskInfo)) :
    (taskGroupCall unfinished ignore gs).filterMap GroupEvent.yielded
      = gs.flatten := by
  induction gs with
  | nil => rfl
  | cons g rest ih =>
    rw [taskGroupCall, List.filterMap_append, groupEvents_yielded, ih]
    rfl

/-- Claim C6: a group with an unfinished member (per `snoop`), or any
group when resumption-skip is off, gets its shared session opened exactly
once before its first member and closed right after its last member, with
every member yielded in between; the driver loop consumes every yielded
member even when invocations raise, so the close is reached.  When every
member of every group is finished and resumption-skip is on, all members
are still yielded but no session is ever opened. -/
theorem c6_group_session_lifecycle (unfinished : TaskInfo → Bool)
    (ignore : Bool) (g : List TaskInfo) (gs : List (List TaskInfo))
    (run : TaskInfo → TaskRun) (c : Counter) :
    ((g.any unfinished || !ignore) = true →
      taskGroupCall unfinished ignore (g :: gs)
        = (.openSession :: (g.map .yieldTask ++ [.closeSession]))
            ++ taskGroupCall unfinished ignore gs) ∧
    (taskGroupCall unfinished ignore gs).filterMap GroupEvent.yielded
      = gs.flatten ∧
    ((∀ h ∈ gs, ∀ t ∈ h, unfinished t = false) → ignore = true →
      GroupEvent.openSession ∉ taskGroupCall unfinished ignore gs) ∧
    (testerRun c (g.map (fun t => (false, run t)))).total
      = c.total + g.length := by
  refine ⟨?_, taskGroupCall_yielded unfinished ignore gs, ?_, ?_⟩
  · intro hcond
    rw [taskGroupCall, groupEvents, if_pos hcond]
  · intro hfin hig
    subst hig
    induction gs with
    | nil => simp [taskGroupCall]
    | cons h rest ih =>
      rw [taskGroupCall]
      have hany : h.any unfinished = false := by
        rw [List.any_eq_false]
        intro t ht
        simp [hfin h (by simp) t ht]
      rw [groupEvents, hany]
      simp only [Bool.not_true, Bool.or_false]
      rw [if_neg (by simp)]
      intro hmem
      rcases List.mem_append.mp hmem with hmem | hmem
      · rcases List.mem_map.mp hmem with ⟨t, _, habs⟩
        exact GroupEvent.noConfusion habs
      · exact ih (fun h2 hh2 => hfin h2 (by simp [hh2])) hmem
  · rw [testerRun_total]
    simp

/-- Witness for C6: Scenario E shape — a group of three finished members
with resumption-skip on yields all three and never opens the session; a
group with an unfinished member opens and closes around its members. -/
theorem c6_witness :
    (taskGroupCall (fun _ => false) true
        [[⟨"a", ⟨"x", .Raw⟩⟩, ⟨"b", ⟨"x", .Raw⟩⟩, ⟨"c", ⟨"x", .Raw⟩⟩]]).filterMap
        GroupEvent.yielded
      = [⟨"a", ⟨"x", .Raw⟩⟩, ⟨"b", ⟨"x", .Raw⟩⟩, ⟨"c", ⟨"x", .Raw⟩⟩] ∧
    GroupEvent.openSession ∉ taskGroupCall (fun _ => false) true
      [[⟨"a", ⟨"x", .Raw⟩⟩, ⟨"b", ⟨"x", .Raw⟩⟩, ⟨"c", ⟨"x", .Raw⟩⟩]] ∧
    taskGroupCall (fun _ => true) true [[⟨"a", ⟨"x", .Raw⟩⟩]]
      = [.openSession, .yieldTask ⟨"a", ⟨"x", .Raw⟩⟩, .closeSession] := by
  have t1 := c6_group_session_lifecycle (fun _ => false) true []
    [[⟨"a", ⟨"x", .Raw⟩⟩, ⟨"b", ⟨"x", .Raw⟩⟩, ⟨"c", ⟨"x", .Raw⟩⟩]]
    (fun _ => .raises) ⟨0, 0, 0, 0⟩
  have t2 := c6_group_session_lifecycle (fun _ => true) true
    [⟨"a", ⟨"x", .Raw⟩⟩] [] (fun _ => .raises) ⟨0, 0, 0, 0⟩
  refine ⟨?_, t1.2.2.1 (by decide) rfl, ?_⟩
  · rw [t1.2.1]
    rfl
  · rw [t2.1 (by decide)]
    rfl

/-! ## The bounded executor (`block`) -/

/-- What the wrapped operation does if it runs to completion inside the
worker process: return a value or raise (with a traceback string). -/
inductive OpResult (α : Type) where
  | ok (v : α)
  | raises (tb : String)
deriving DecidableEq, Repr

/-- What the worker's `wrapper` puts on the queue (utils.py lines
101-106): `("result", result)` on success, `("error", traceback)` on an
exception. -/
inductive QueueItem (α : Type) where
  | result (v : α)
  | error (tb : String)
deriving DecidableEq, Repr

/-- The `wrapper` closure run in the worker process. -/
def wrapperPut {α : Type} : OpResult α → QueueItem α
  | .ok v => .result v
  | .raises tb => .error tb

/-- Outcome of `block` at the caller: a returned value (`None` when the
queue was empty), the timeout assertion carrying the elapsed bound, or the
re-raised (propagated) worker failure. -/
inductive BlockOutcome (α : Type) where
  | returns (v : Option α)
  | timeoutError (timeout : Nat)
  | propagatedError (tb : String)
deriving DecidableEq, Repr

/-- utils.py lines 108-131 after `proc.join(timeout)`: if the worker is
still alive it is terminated and `assert False, f"Timeout after waiting
for \x7btimeout\x7ds."` fires — the queue is never consulted; otherwise
the queue is drained into `obj`, an `error` entry re-raises via `assert
"error" not in obj`, and `obj.get("result")` is returned. -/
def block (timeout : Nat) (alive : Bool) (queueItem : Option (QueueItem α)) :
    BlockOutcome α :=
  if alive then .timeoutError timeout
  else
    match queueItem with
    | some (.result v) => .returns (some v)
    | some (.error tb) => .propagatedError tb
    | none => .returns none

/-- Claim C7: if the operation completes within the timeout (the worker is
no longer alive after `join` and the queue holds what `wrapper` put
there), `block` returns its result, or propagates its failure if it
raised; if the operation does not complete within the timeout (the worker
is still alive), the worker is terminated and `block` fails with a
`Timeout` error carrying the bound — whatever is on the queue, so no
partial result is ever returned. -/
theorem c7_block_timeout (timeout : Nat) (v : α) (tb : String)
    (q : Option (QueueItem α)) :
    block timeout false (some (wrapperPut (.ok v))) = .returns (some v) ∧
    block timeout false (some (wrapperPut (OpResult.raises tb : OpResult α)))
      = .propagatedError tb ∧
    block timeout true q = .timeoutError timeout := by
  exact ⟨rfl, rfl, rfl⟩

/-! ## Initialisation with retry (`Task.init`, `Task.__call`) -/

/-- `Task.CONFIG_RETRY` from task.py line 28. -/
def CONFIG_RETRY : Nat := 5

/-- What executing one entry of the config's init list does: the handler
returns (with some truthiness) or raises; a raised error is logged and
leaves `succeed = False` (task.py lines 239-250). -/
inductive InitEntryOutcome where
  | returns (truthy : Bool)
  | raises
deriving DecidableEq, Repr

/-- The `succeed` flag after running one entry. -/
def entrySucceed : InitEntryOutcome → Bool
  | .returns b => b
  | .raises => false

/-- The inner `for init_item in self.initialize:` loop of `Task.init`:
entries run in order until the first non-success (`if not succeed:
feedback = False; break`); returns how many entries executed and the final
`feedback`. -/
def runEntries : List InitEntryOutcome → Nat × Bool
  | [] => (0, true)
  | e :: rest =>
    if entrySucceed e then
      ((runEntries rest).1 + 1, (runEntries rest).2)
    else
      (1, false)

/-- One attempt of the retry loop: the `_init()` baseline-reset result and
the outcomes the entries would have in this attempt. -/
structure InitAttempt where
  resetOk : Bool
  entries : List InitEntryOutcome

/-- An attempt succeeds when `_init()` returned `True` and `feedback`
stayed `True` through every entry; `if not self._init(): continue` aborts
the attempt before any entry runs. -/
def attemptSucceeds (a : InitAttempt) : Bool :=
  a.resetOk && (runEntries a.entries).2

/-- How many entries an attempt actually executes. -/
def attemptExecuted (a : InitAttempt) : Nat :=
  if a.resetOk then (runEntries a.entries).1 else 0

/-- The `for _ in range(Task.CONFIG_RETRY):` loop of `Task.init` (task.py
lines 227-258): `k` attempts remain and `i` attempts were already made;
returns the boolean result together with the number of attempts
consumed. -/
def initLoop (att : Nat → InitAttempt) : Nat → Nat → Bool × Nat
  | 0, i => (false, i)
  | k + 1, i =>
    if attemptSucceeds (att i) then (true, i + 1)
    else initLoop att k (i + 1)

/-- `Task.init`. -/
def taskInit (att : Nat → InitAttempt) : Bool × Nat :=
  initLoop att CONFIG_RETRY 0

/-- `Task.__call` (task.py lines 391-393): `assert self.init(), "Fail to
initialize the task"`; only on success does the verdict of
predict/evaluate come back. -/
def taskCall (att : Nat → InitAttempt) (verdict : Bool) :
    Except String Bool :=
  if (taskInit att).1 then .ok verdict
  else .error "Fail to initialize the task"

/-- The retry loop never consumes more attempts than remain. -/
theorem initLoop_le (att : Nat → InitAttempt) (k : Nat) :
    ∀ i, (initLoop att k i).2 ≤ i + k := by
  induction k with
  | zero => intro i; simp [initLoop]
  | succ k ih =>
    intro i
    rw [initLoop]
    split
    · simp
    · calc (initLoop att k (i + 1)).2 ≤ i + 1 + k := ih (i + 1)
      _ = i + (k + 1) := by omega

/-- The retry loop returns `True` exactly when one of the remaining
attempts succeeds. -/
theorem initLoop_true_iff (att : Nat → InitAttempt) (k : Nat) :
    ∀ i, (initLoop att k i).1 = true ↔
      ∃ j, j < k ∧ attemptSucceeds (att (i + j)) = true := by
  induction k with
  | zero => intro i; simp [initLoop]
  | succ k ih =>
    intro i
    rw [initLoop]
    by_cases h : attemptSucceeds (att i) = true
    · rw [if_pos h]
      constructor
      · intro _
        refine ⟨0, by omega, ?_⟩
        simpa using h
      · intro _
        rfl
    · rw [if_neg h, ih (i + 1)]
      constructor
      · rintro ⟨j, hj, hs⟩
        refine ⟨j + 1, by omega, ?_⟩
        have heq : i + (j + 1) = i + 1 + j := by omega
        rw [heq]
        exact hs
      · rintro ⟨j, hj, hs⟩
        cases j with
        | zero => exact absurd (by simpa using hs) h
        | succ j =>
          refine ⟨j, by omega, ?_⟩
          have heq : i + 1 + j = i + (j + 1) := by omega
          rw [heq]
          exact hs

/-- The retry loop stops at the first successful attempt. -/
theorem initLoop_first (att : Nat → InitAttempt) (k : Nat) :
    ∀ i j, j < k → attemptSucceeds (att (i + j)) = true →
      (∀ l, l < j → attemptSucceeds (att (i + l)) = false) →
      initLoop att k i = (true, i + j + 1) := by
  induction k with
  | zero => intro i j hj _ _; omega
  | succ k ih =>
    intro i j hj hs hfirst
    rw [initLoop]
    cases j with
    | zero =>
      rw [if_pos (by simpa using hs)]
    | succ j =>
      rw [if_neg (by
        have := hfirst 0 (by omega)
        simp at this
        simp [this])]
      rw [ih (i + 1) j (by omega)
        (by rw [show i + 1 + j = i + (j + 1) from by omega]; exact hs)
        (fun l hl => by
          rw [show i + 1 + l = i + (l + 1) from by omega]
          exact hfirst (l + 1) (by omega))]
      congr 1
      omega

/-- A failing entry cuts the attempt short: entries after it never run. -/
theorem runEntries_break (pre post : List InitEntryOutcome)
    (e : InitEntryOutcome) :
    (∀ x ∈ pre, entrySucceed x = true) → entrySucceed e = false →
      runEntries (pre ++ e :: post) = (pre.length + 1, false) := by
  induction pre with
  | nil =>
    intro _ he
    rw [List.nil_append, runEntries, if_neg (by simp [he])]
    rfl
  | cons x pre ih =>
    intro hpre he
    rw [List.cons_append, runEntries,
      if_pos (hpre x (by simp)), ih (fun y hy => hpre y (by simp [hy])) he]
    simp

/-- Claim C8: `Task.init` makes at most `CONFIG_RETRY = 5` attempts; a
failed baseline reset aborts only that attempt, before any entry runs; a
raised error or non-success return from an entry aborts the remaining
entries of that attempt; `init` returns `True` as soon as one attempt
completes every entry successfully, is `False` once all attempts are
exhausted, and then `Task.__call`'s assertion turns the run into an
unrecoverable initialization failure. -/
theorem c8_init_retry (att : Nat → InitAttempt) (i j : Nat)
    (pre post : List InitEntryOutcome) (e : InitEntryOutcome) :
    CONFIG_RETRY = 5 ∧
    (taskInit att).2 ≤ CONFIG_RETRY ∧
    ((taskInit att).1 = true ↔
      ∃ j, j < CONFIG_RETRY ∧ attemptSucceeds (att j) = true) ∧
    ((att i).resetOk = false →
      attemptExecuted (att i) = 0 ∧ attemptSucceeds (att i) = false) ∧
    ((∀ x ∈ pre, entrySucceed x = true) → entrySucceed e = false →
      runEntries (pre ++ e :: post) = (pre.length + 1, false)) ∧
    (j < CONFIG_RETRY → attemptSucceeds (att j) = true →
      (∀ l, l < j → attemptSucceeds (att l) = false) →
      taskInit att = (true, j + 1)) ∧
    ((taskInit att).1 = false →
      taskCall att true = .error "Fail to initialize the task") := by
  refine ⟨rfl, ?_, ?_, ?_, runEntries_break pre post e, ?_, ?_⟩
  · simpa using initLoop_le att CONFIG_RETRY 0
  · simpa using initLoop_true_iff att CONFIG_RETRY 0
  · intro hreset
    constructor
    · simp [attemptExecuted, hreset]
    · simp [attemptSucceeds, hreset]
  · intro hj hs hfirst
    have := initLoop_first att CONFIG_RETRY 0 j hj (by simpa using hs)
      (fun l hl => by simpa using hfirst l hl)
    simpa [taskInit] using this
  · intro hfail
    rw [taskCall, if_neg (by simp [hfail])]

/-- Witness for C8 at concrete inputs. -/
theorem c8_witness :
    taskInit (fun k => if k < 2 then ⟨false, []⟩
      else ⟨true, [.returns true]⟩) = (true, 3) ∧
    runEntries [.returns true, .raises, .returns true] = (2, false) ∧
    attemptExecuted ⟨false, [.returns true]⟩ = 0 ∧
    taskCall (fun _ => ⟨true, [.returns false]⟩) true
      = .error "Fail to initialize the task" := by
  have t1 := c8_init_retry (fun k => if k < 2 then ⟨false, []⟩
    else ⟨true, [.returns true]⟩) 0 2 [] [] (.returns true)
  have t2 := c8_init_retry (fun _ => InitAttempt.mk true [.returns false]) 0 0
    [.returns true] [.returns true] .raises
  have t3 := c8_init_retry (fun _ => InitAttempt.mk false [.returns true]) 0 0
    [] [] .raises
  refine ⟨?_, ?_, ?_, ?_⟩
  · exact t1.2.2.2.2.2.1 (by decide) (by decide) (by decide)
  · exact t2.2.2.2.2.1 (by decide) (by decide)
  · exact (t3.2.2.2.1 (by decide)).1
  · exact t2.2.2.2.2.2.2 (by decide)

end CODA
